import Mathlib

/-!
Verification of the incremental tail-and-broadcast engine of cc-log-viewer.

The engine lives in two places in the repository: the library
(`src/lib.rs`, `WatchManager`) and an older duplicate inside the binary
(`src/main.rs`, also named `WatchManager`).  Both are embedded here; the
library functions keep their source names (`read_new_entries`,
`handle_fs_event`, ...) and the binary's duplicates carry a `main_` marker.

File contents are modelled as lists of bytes (`List Nat`, newline = 10).
External libraries are modelled by their documented contracts:
serde_json's typed deserialization is split into an abstract text-to-JSON
parse (a field of `ExternalFns`) followed by a concrete struct extraction
(`logEntryFromJson`, which mirrors the derived `Deserialize` for
`LogEntry` under serde_json's `deserialize_struct`: a JSON object is
extracted by field name with a missing or null field as `None` and a type
mismatch failing, and — the struct-from-sequence branch — a JSON array of
exactly the struct's 14 fields in declaration order is also accepted;
every other value is a type error); `fs::read_to_string` becomes an
`Option (List Nat)` argument (`none` is a read error); tokio's broadcast
`send` fails exactly when there are no receivers (`broadcast_send`);
`DashMap` becomes an association list with replacing insert.
-/

/-- Instants of `chrono::DateTime<Utc>` and of `SystemTime`, abstracted. -/
abbrev Timestamp := Int

/-- The serde_json data model (`serde_json::Value`), with numbers abstracted
to `Int`; none of the verified properties depends on number values. -/
inductive Json where
  | null : Json
  | bool (b : Bool) : Json
  | num (n : Int) : Json
  | str (s : String) : Json
  | arr (elems : List Json) : Json
  | obj (fields : List (String × Json)) : Json

/-- Behaviour of the external text-level libraries: serde_json's
text-to-`Value` parse and chrono's RFC 3339 timestamp parse.  Every theorem
below is quantified over these, witnesses instantiate them concretely. -/
structure ExternalFns where
  parseJson : List Nat → Option Json
  parseDateTime : String → Option Timestamp

/-- `LogEntry` from src/lib.rs lines 25-49 (identical copy in src/main.rs
lines 39-63): one parsed JSON object from a log line, every field optional. -/
structure LogEntry where
  entry_type : Option String
  summary : Option String
  parent_uuid : Option String
  is_sidechain : Option Bool
  user_type : Option String
  cwd : Option String
  session_id : Option String
  version : Option String
  message : Option Json
  uuid : Option String
  timestamp : Option Timestamp
  request_id : Option String
  leaf_uuid : Option String
  tool_use_result : Option Json

/-- Field lookup in a parsed JSON object (serde's map access by field name). -/
def jLookup (fs : List (String × Json)) (k : String) : Option Json :=
  (fs.find? (fun p => p.1 == k)).map (fun p => p.2)

/-- serde semantics of an `Option<String>` struct field: missing or `null`
is `None`, a string is `Some`, anything else is a type error. -/
def decOptStr : Option Json → Option (Option String)
  | none => some none
  | some Json.null => some none
  | some (Json.str s) => some (some s)
  | some _ => none

/-- serde semantics of an `Option<bool>` struct field. -/
def decOptBool : Option Json → Option (Option Bool)
  | none => some none
  | some Json.null => some none
  | some (Json.bool b) => some (some b)
  | some _ => none

/-- serde semantics of an `Option<Value>` struct field: missing or `null`
is `None`, any other JSON value is kept as is. -/
def decOptVal : Option Json → Option (Option Json)
  | none => some none
  | some Json.null => some none
  | some v => some (some v)

/-- serde semantics of an `Option<DateTime<Utc>>` struct field: the value
must be a string that chrono parses; a present but unparsable or
non-string value is an error. -/
def decOptTime (ext : ExternalFns) : Option Json → Option (Option Timestamp)
  | none => some none
  | some Json.null => some none
  | some (Json.str s) =>
    match ext.parseDateTime s with
    | some t => some (some t)
    | none => none
  | some _ => none

/-- The derived `Deserialize` for `LogEntry` applied to a parsed JSON value,
per serde_json's `deserialize_struct`: a JSON object is extracted by
(renamed) field name; a JSON array is accepted too (the struct-from-sequence
branch) when it has exactly 14 elements, taken as the fields in declaration
order; every other value is a type error. -/
def logEntryFromJson (ext : ExternalFns) : Json → Option LogEntry
  | Json.obj fs => do
    let entry_type ← decOptStr (jLookup fs "type")
    let summary ← decOptStr (jLookup fs "summary")
    let parent_uuid ← decOptStr (jLookup fs "parentUuid")
    let is_sidechain ← decOptBool (jLookup fs "isSidechain")
    let user_type ← decOptStr (jLookup fs "userType")
    let cwd ← decOptStr (jLookup fs "cwd")
    let session_id ← decOptStr (jLookup fs "sessionId")
    let version ← decOptStr (jLookup fs "version")
    let message ← decOptVal (jLookup fs "message")
    let uuid ← decOptStr (jLookup fs "uuid")
    let timestamp ← decOptTime ext (jLookup fs "timestamp")
    let request_id ← decOptStr (jLookup fs "requestId")
    let leaf_uuid ← decOptStr (jLookup fs "leafUuid")
    let tool_use_result ← decOptVal (jLookup fs "toolUseResult")
    some ⟨entry_type, summary, parent_uuid, is_sidechain, user_type, cwd,
      session_id, version, message, uuid, timestamp, request_id, leaf_uuid,
      tool_use_result⟩
  | Json.arr es =>
    match es with
    | [j1, j2, j3, j4, j5, j6, j7, j8, j9, j10, j11, j12, j13, j14] => do
      let entry_type ← decOptStr (some j1)
      let summary ← decOptStr (some j2)
      let parent_uuid ← decOptStr (some j3)
      let is_sidechain ← decOptBool (some j4)
      let user_type ← decOptStr (some j5)
      let cwd ← decOptStr (some j6)
      let session_id ← decOptStr (some j7)
      let version ← decOptStr (some j8)
      let message ← decOptVal (some j9)
      let uuid ← decOptStr (some j10)
      let timestamp ← decOptTime ext (some j11)
      let request_id ← decOptStr (some j12)
      let leaf_uuid ← decOptStr (some j13)
      let tool_use_result ← decOptVal (some j14)
      some ⟨entry_type, summary, parent_uuid, is_sidechain, user_type, cwd,
        session_id, version, message, uuid, timestamp, request_id, leaf_uuid,
        tool_use_result⟩
    | _ => none
  | _ => none

/-- `serde_json::from_str::<LogEntry>` on one line: textual JSON parse
followed by typed extraction. -/
def fromStr (ext : ExternalFns) (line : List Nat) : Option LogEntry :=
  (ext.parseJson line).bind (logEntryFromJson ext)

/-- ASCII bytes that Rust's `str::trim` removes (`char::is_whitespace`
restricted to one-byte characters). -/
def isWsB (b : Nat) : Bool :=
  b == 9 || b == 10 || b == 11 || b == 12 || b == 13 || b == 32

/-- Rust `str::trim` over the byte model. -/
def trimBytes (l : List Nat) : List Nat :=
  ((l.dropWhile isWsB).reverse.dropWhile isWsB).reverse

/-- The loop body of `WatchManager::read_new_entries` (src/lib.rs lines
242-253) for one line spanning bytes `lineStart` to `lineEnd`: keep the
line when its start offset is at least `fromPos`, its trimmed text starts
with 123 and ends with 125 (the braces), and it parses as a `LogEntry`;
the retained entry is paired with the line's end offset. -/
def retainLine (ext : ExternalFns) (fromPos lineStart : Nat) (c : List Nat)
    (lineEnd : Nat) : Option (LogEntry × Nat) :=
  if fromPos ≤ lineStart then
    if (trimBytes c).head? = some 123 && (trimBytes c).getLast? = some 125 then
      match fromStr ext c with
      | some en => some (en, lineEnd)
      | none => none
    else none
  else none

/-- The byte scan of `WatchManager::read_new_entries` (src/lib.rs lines
222-261): walk the buffer, cut it at every byte 10, and apply the loop
body to each line.  `start` is the current line's start offset, `pos` the
offset of the next unread byte, `acc` the reversed bytes of the current
line read so far. -/
def scan_go (ext : ExternalFns) (fromPos : Nat) :
    List Nat → Nat → Nat → List Nat → List (LogEntry × Nat)
  | [], start, pos, acc =>
    if acc.isEmpty then []
    else (retainLine ext fromPos start acc.reverse pos).toList
  | b :: rest, start, pos, acc =>
    if b = 10 then
      (retainLine ext fromPos start acc.reverse (pos + 1)).toList
        ++ scan_go ext fromPos rest (pos + 1) (pos + 1) []
    else
      scan_go ext fromPos rest start (pos + 1) (b :: acc)

/-- The successful-read branch of `WatchManager::read_new_entries`. -/
def scan_new_entries (ext : ExternalFns) (content : List Nat) (fromPos : Nat) :
    List (LogEntry × Nat) :=
  scan_go ext fromPos content 0 0 []

/-- `WatchManager::read_new_entries` (src/lib.rs lines 206-264): a failed
`fs::read_to_string` (`readRes = none`) is caught and reported as
`Ok(Vec::new())`; the function never returns an error. -/
def read_new_entries (ext : ExternalFns) (readRes : Option (List Nat))
    (fromPos : Nat) : Except String (List (LogEntry × Nat)) :=
  Except.ok (match readRes with
    | none => []
    | some content => scan_new_entries ext content fromPos)

/-- Line decomposition of a buffer: each element is
(start offset, line content, end offset), where the end offset is one past
the line's trailing newline, or the end of the buffer for a final
unterminated line.  Same accumulator discipline as `scan_go`. -/
def spans_go : List Nat → Nat → Nat → List Nat → List (Nat × List Nat × Nat)
  | [], start, pos, acc =>
    if acc.isEmpty then [] else [(start, acc.reverse, pos)]
  | b :: rest, start, pos, acc =>
    if b = 10 then
      (start, acc.reverse, pos + 1) :: spans_go rest (pos + 1) (pos + 1) []
    else
      spans_go rest start (pos + 1) (b :: acc)

/-- The lines of a buffer together with their byte spans. -/
def lineSpans (content : List Nat) : List (Nat × List Nat × Nat) :=
  spans_go content 0 0 []

/-- Strip one trailing carriage return, as Rust's `str::lines` does. -/
def stripCr (l : List Nat) : List Nat :=
  if l.getLast? = some 13 then l.dropLast else l

/-- Rust `str::lines`: split on byte 10 with no trailing empty line, and
strip a trailing byte 13 from each line. -/
def rustLines (content : List Nat) : List (List Nat) :=
  (lineSpans content).map (fun sp => stripCr sp.2.1)

/-- The parsing loop of `get_session_logs` (src/lib.rs lines 437-442):
every line of the file that deserializes as a `LogEntry` is kept, with no
brace pre-filter. -/
def get_session_logs_entries (ext : ExternalFns) (content : List Nat) :
    List LogEntry :=
  (rustLines content).filterMap (fromStr ext)

/-- `WatchEvent` from src/lib.rs lines 68-76 (identical in src/main.rs). -/
structure WatchEvent where
  event_type : String
  project : String
  session : Option String
  entry : Option LogEntry
  timestamp : Timestamp

/-- `SessionState` from src/lib.rs lines 78-85: per-stream tracked state. -/
structure SessionState where
  project_name : String
  session_file : String
  last_position : Nat
  last_modified : Timestamp

/-- The `active_sessions : DashMap<String, SessionState>` map, modelled as
an association list whose insert replaces any existing binding. -/
abbrev SessionsMap := List (String × SessionState)

/-- `DashMap::get` composed with the `map`. -/
def lookupS (m : SessionsMap) (k : String) : Option SessionState :=
  (m.find? (fun p => p.1 == k)).map (fun p => p.2)

/-- `DashMap::insert`, replacing any binding of the same key. -/
def insertS (k : String) (v : SessionState) (m : SessionsMap) : SessionsMap :=
  (k, v) :: m.filter (fun p => p.1 != k)

/-- The dispatcher's offset lookup (src/lib.rs lines 149-154): the tracked
last position of a stream key, or 0 when the key is unseen. -/
def getPos (m : SessionsMap) (k : String) : Nat :=
  match lookupS m k with
  | some st => st.last_position
  | none => 0

/-- tokio `broadcast::Sender::send`: returns the event back as an error
exactly when there are no active receivers, otherwise delivers to every
receiver and succeeds.  `r` is the current receiver count. -/
def broadcast_send (r : Nat) (ev : WatchEvent) : Except WatchEvent Unit :=
  if r = 0 then Except.error ev else Except.ok ()

/-- The broadcast loop of `WatchManager::handle_fs_event` in src/lib.rs
lines 159-181: send up to the already-capped list of entries, breaking on
a send error without advancing `last_processed_position`; returns the
events actually published and the final `last_processed_position`. -/
def send_loop (r : Nat) (now : Timestamp) (proj sess : String) :
    List (LogEntry × Nat) → Nat → List WatchEvent × Nat
  | [], last => ([], last)
  | (en, pos) :: rest, last =>
    match broadcast_send r ⟨"log_entry", proj, some sess, some en, now⟩ with
    | Except.error _ => ([], last)
    | Except.ok _ =>
      let res := send_loop r now proj sess rest pos
      (⟨"log_entry", proj, some sess, some en, now⟩ :: res.1, res.2)

/-- The pieces of a `PathBuf` that the dispatcher inspects: extension,
parent directory name, file stem, and the raw path. -/
structure PathInfo where
  ext : Option String
  parentName : Option String
  stem : Option String
  raw : String

/-- `fs::metadata` result: file length and optional modification time
(`metadata.modified()` is a `Result`). -/
structure Metadata where
  len : Nat
  modified : Option Timestamp

/-- The per-path body of `WatchManager::handle_fs_event` in src/lib.rs
lines 133-197: filter to `.jsonl` paths, derive (project, session) from
parent directory name and file stem, look up the tracked offset, read new
entries (a read error yields the empty list), publish at most 10 of them,
and store back a `SessionState` whose `last_position` is the end offset of
the last entry actually published (the prior offset when none was). -/
def handle_path (ext : ExternalFns) (now sysNow : Timestamp) (p : PathInfo)
    (mdRes : Option Metadata) (readRes : Option (List Nat)) (r : Nat)
    (sessions : SessionsMap) : SessionsMap × List WatchEvent :=
  if p.ext = some "jsonl" then
    match p.parentName with
    | none => (sessions, [])
    | some proj =>
      let sess := p.stem.getD "unknown"
      match mdRes with
      | none => (sessions, [])
      | some md =>
        let key := proj ++ ":" ++ sess
        let cur := getPos sessions key
        match read_new_entries ext readRes cur with
        | Except.error _ => (sessions, [])
        | Except.ok entries =>
          let res := send_loop r now proj sess (entries.take 10) cur
          (insertS key ⟨proj, p.raw, res.2, md.modified.getD sysNow⟩ sessions,
            res.1)
  else (sessions, [])

/-- Filesystem event kinds as matched by the dispatcher. -/
inductive FsEventKind where
  | create : FsEventKind
  | modify : FsEventKind
  | remove : FsEventKind
  | other : FsEventKind

/-- `WatchManager::handle_fs_event` (src/lib.rs lines 125-204): on a
create or modify event, process each path in turn (each path comes with
its own metadata and read snapshot); any other kind is ignored.  The
function's `Result` is always `Ok`: no per-file error escapes. -/
def handle_fs_event (ext : ExternalFns) (now sysNow : Timestamp)
    (kind : FsEventKind)
    (paths : List (PathInfo × Option Metadata × Option (List Nat)))
    (r : Nat) (sessions : SessionsMap) :
    Except String (SessionsMap × List WatchEvent) :=
  match kind with
  | FsEventKind.create | FsEventKind.modify =>
    Except.ok (paths.foldl
      (fun acc pm =>
        let res := handle_path ext now sysNow pm.1 pm.2.1 pm.2.2 r acc.1
        (res.1, acc.2 ++ res.2))
      (sessions, []))
  | _ => Except.ok (sessions, [])

/-- The line loop of the binary's duplicate `read_new_entries`
(src/main.rs lines 227-240): iterate over `content.lines()`, tracking
`current_pos` as the accumulated stripped line length plus one per line,
and keep lines from `current_pos >= from_position` that pass the brace
pre-filter and parse. -/
def main_scan_go (ext : ExternalFns) (fromPos : Nat) :
    List (List Nat) → Nat → List LogEntry
  | [], _ => []
  | l :: rest, pos =>
    let tail := main_scan_go ext fromPos rest (pos + l.length + 1)
    if fromPos ≤ pos then
      if (trimBytes l).head? = some 123 && (trimBytes l).getLast? = some 125 then
        match fromStr ext l with
        | some en => en :: tail
        | none => tail
      else tail
    else tail

/-- The successful-read branch of the binary's `read_new_entries`. -/
def main_scan (ext : ExternalFns) (content : List Nat) (fromPos : Nat) :
    List LogEntry :=
  main_scan_go ext fromPos (rustLines content) 0

/-- The binary's duplicate `WatchManager::read_new_entries`
(src/main.rs lines 211-243): read errors again become `Ok(Vec::new())`,
and the entries carry no end offsets. -/
def main_read_new_entries (ext : ExternalFns) (readRes : Option (List Nat))
    (fromPos : Nat) : Except String (List LogEntry) :=
  Except.ok (match readRes with
    | none => []
    | some content => main_scan ext content fromPos)

/-- The broadcast loop of the binary's `handle_fs_event` (src/main.rs
lines 184-199): no position bookkeeping, break on send error. -/
def main_send_loop (r : Nat) (now : Timestamp) (proj sess : String) :
    List LogEntry → List WatchEvent
  | [] => []
  | en :: rest =>
    match broadcast_send r ⟨"log_entry", proj, some sess, some en, now⟩ with
    | Except.error _ => []
    | Except.ok _ =>
      ⟨"log_entry", proj, some sess, some en, now⟩
        :: main_send_loop r now proj sess rest

/-- The per-path body of the binary's duplicate `handle_fs_event`
(src/main.rs lines 147-203).  Unlike the library version it stores the
new `SessionState` BEFORE broadcasting, with `last_position` set to
`metadata.len()` — the raw end-of-file size — regardless of how many of
the (at most 10) entries are actually published. -/
def main_handle_path (ext : ExternalFns) (now sysNow : Timestamp)
    (p : PathInfo) (mdRes : Option Metadata) (readRes : Option (List Nat))
    (r : Nat) (sessions : SessionsMap) : SessionsMap × List WatchEvent :=
  if p.ext = some "jsonl" then
    match p.parentName with
    | none => (sessions, [])
    | some proj =>
      let sess := p.stem.getD "unknown"
      match mdRes with
      | none => (sessions, [])
      | some md =>
        let key := proj ++ ":" ++ sess
        let cur := getPos sessions key
        match main_read_new_entries ext readRes cur with
        | Except.error _ => (sessions, [])
        | Except.ok entries =>
          (insertS key ⟨proj, p.raw, md.len, md.modified.getD sysNow⟩ sessions,
            main_send_loop r now proj sess (entries.take 10))
  else (sessions, [])

/-- Outcome of `main()` in src/main.rs: whether the process failed, and
whether the watcher and the HTTP server were started. -/
structure MainOutcome where
  exitedWithError : Bool
  watcherStarted : Bool
  served : Bool

/-- Startup sequence of `main()` (src/main.rs lines 474-521): if the
projects directory does not exist, print the error and `exit(1)` before
`AppState::new` ever runs; otherwise initialize the watch manager
(failure aborts with an error before serving), then bind and serve. -/
def run_main (dirExists appStateOk bindOk : Bool) : MainOutcome :=
  if dirExists = false then ⟨true, false, false⟩
  else if appStateOk = false then ⟨true, false, false⟩
  else if bindOk = false then ⟨true, true, false⟩
  else ⟨false, true, true⟩

/-- Observable state of one `handle_websocket` connection (src/lib.rs
lines 816-863): whether the spawned inbound reader task and outbound
forwarder task are still running, whether the enclosing select has
returned, and whether the broadcast subscription (`watch_rx`, owned by
the outbound task) is still registered. -/
structure WsState where
  inboundRunning : Bool
  outboundRunning : Bool
  handlerReturned : Bool
  subscribed : Bool

/-- External stimuli of one connection: frames arriving on the inbound
stream, and broadcast events arriving at the subscription (tagged with
whether serialization and the transport send succeed). -/
inductive WsInput where
  | textFrame : WsInput
  | otherFrame : WsInput
  | closeFrame : WsInput
  | inboundError : WsInput
  | inboundEOF : WsInput
  | chanEvent (serOk sendOk : Bool) : WsInput
  | chanClosed : WsInput

/-- One step of the connection model, from the code plus tokio's
documented semantics: `tokio::select!` over the two `JoinHandle`s returns
when either task completes, and dropping the other `JoinHandle` DETACHES
that task — it keeps running with its resources (the outbound task owns
the subscription) until its own loop exits.  The inbound loop exits on a
close frame, a transport error or end of stream; the outbound loop exits
on a transport send failure or a closed channel, and merely skips an
event whose serialization fails. -/
def wsStep (s : WsState) (i : WsInput) : WsState :=
  match i with
  | WsInput.textFrame => s
  | WsInput.otherFrame => s
  | WsInput.closeFrame | WsInput.inboundError | WsInput.inboundEOF =>
    if s.inboundRunning then
      { s with inboundRunning := false, handlerReturned := true }
    else s
  | WsInput.chanEvent serOk sendOk =>
    if s.outboundRunning then
      if serOk = false then s
      else if sendOk then s
      else { s with outboundRunning := false, handlerReturned := true,
                    subscribed := false }
    else s
  | WsInput.chanClosed =>
    if s.outboundRunning then
      { s with outboundRunning := false, handlerReturned := true,
               subscribed := false }
    else s

/-- A fresh connection: both tasks running, subscription held. -/
def wsInit : WsState := ⟨true, true, false, true⟩

/-- Run a connection against a sequence of stimuli. -/
def wsRun (l : List WsInput) : WsState := l.foldl wsStep wsInit

/-- The `LogEntry` that deserializing the JSON object with no fields
yields: every optional field absent. -/
def emptyEntryC : LogEntry :=
  ⟨none, none, none, none, none, none, none, none, none, none, none, none,
    none, none⟩

/-- A concrete instantiation of the external parsers for evaluation: the
two-byte text 123, 125 (the line consisting of an empty JSON object)
parses to the empty object, nothing else parses. -/
def extC : ExternalFns :=
  ⟨fun l => if l = [123, 125] then some (Json.obj []) else none,
    fun _ => none⟩

/-- A 45-byte file of 15 lines, each the three bytes 123, 125, 10: fifteen
one-object lines, more than the batch cap of 10. -/
def contentC : List Nat := (List.replicate 15 [123, 125, 10]).flatten

/-- A qualifying path: project directory groupA, session file s1.jsonl. -/
def pathC : PathInfo := ⟨some "jsonl", some "groupA", some "s1", "groupA/s1.jsonl"⟩

/-- Metadata of `contentC`: 45 bytes long. -/
def mdC : Metadata := ⟨45, some 7⟩

/-- Metadata of the two-byte file consisting of one unterminated line. -/
def md2C : Metadata := ⟨2, some 7⟩

/-- First invocation of the binary's dispatcher on the fresh 15-line file,
with one subscriber. -/
def mainDisp1 : SessionsMap × List WatchEvent :=
  main_handle_path extC 0 0 pathC (some mdC) (some contentC) 1 []

/-- Second invocation of the binary's dispatcher: same file, no new
writes, starting from the state the first invocation stored. -/
def mainDisp2 : SessionsMap × List WatchEvent :=
  main_handle_path extC 0 0 pathC (some mdC) (some contentC) 1 mainDisp1.1

/-- First invocation of the library's dispatcher on the same file. -/
def libDisp1 : SessionsMap × List WatchEvent :=
  handle_path extC 0 0 pathC (some mdC) (some contentC) 1 []

/-- Second invocation of the library's dispatcher. -/
def libDisp2 : SessionsMap × List WatchEvent :=
  handle_path extC 0 0 pathC (some mdC) (some contentC) 1 libDisp1.1

/-- A concrete event for exercising `broadcast_send`. -/
def evC : WatchEvent := ⟨"log_entry", "groupA", some "s1", none, 0⟩

/-- The single event the library dispatcher publishes for the one-line
two-byte file. -/
def ev10 : WatchEvent := ⟨"log_entry", "groupA", some "s1", some emptyEntryC, 0⟩

/-- The entry list the library dispatcher works with: the payload of
`read_new_entries` (empty on a read error). -/
def entriesOf (ext : ExternalFns) (readRes : Option (List Nat)) (cur : Nat) :
    List (LogEntry × Nat) :=
  match readRes with
  | none => []
  | some content => scan_new_entries ext content cur

/-- The entry list the binary's dispatcher works with. -/
def main_entriesOf (ext : ExternalFns) (readRes : Option (List Nat))
    (cur : Nat) : List LogEntry :=
  match readRes with
  | none => []
  | some content => main_scan ext content cur

/-- Whether a JSON value is an object. -/
def jsonIsObj : Json → Bool
  | Json.obj _ => true
  | _ => false

/-- The 71 bytes of the line consisting of a JSON array of 14 nulls:
byte 91, then fourteen times the four bytes of the word null separated by
byte 44, then byte 93. -/
def arrLineC : List Nat :=
  [91] ++ [110, 117, 108, 108]
    ++ (List.replicate 13 [44, 110, 117, 108, 108]).flatten ++ [93]

/-- External parsers for the array-line counterexample: serde_json parses
`arrLineC` to the JSON array of 14 nulls; nothing else parses. -/
def extA : ExternalFns :=
  ⟨fun l => if l = arrLineC then some (Json.arr (List.replicate 14 Json.null))
      else none,
    fun _ => none⟩

theorem aux_lookup_insert_self (k : String) (v : SessionState) (m : SessionsMap) :
    lookupS (insertS k v m) k = some v := by
  simp [lookupS, insertS, List.find?]

theorem aux_lookup_insert_ne (k k' : String) (v : SessionState) (m : SessionsMap)
    (h : k' ≠ k) : lookupS (insertS k v m) k' = lookupS m k' := by
  simp only [lookupS, insertS]
  have hk : (k == k') = false := by
    simp [beq_iff_eq]
    exact fun he => h he.symm
  rw [List.find?]
  simp only [hk]
  induction m with
  | nil => simp
  | cons a rest ih =>
    by_cases ha : a.1 = k
    · have h1 : (a.1 != k) = false := by simp [ha]
      have h2 : (a.1 == k') = false := by
        simp [beq_iff_eq, ha]
        exact fun he => h he.symm
      simp only [List.filter, h1, List.find?, h2] at ih ⊢
      exact ih
    · have h1 : (a.1 != k) = true := by simp [ha]
      simp only [List.filter, h1, List.find?]
      by_cases ha' : a.1 = k'
      · simp [ha']
      · have h2 : (a.1 == k') = false := by simp [ha']
        simp only [h2] at ih ⊢
        exact ih

theorem aux_getPos_insert_self (k : String) (v : SessionState) (m : SessionsMap) :
    getPos (insertS k v m) k = v.last_position := by
  simp [getPos, aux_lookup_insert_self]

theorem aux_getPos_insert_ne (k k' : String) (v : SessionState) (m : SessionsMap)
    (h : k' ≠ k) : getPos (insertS k v m) k' = getPos m k' := by
  simp [getPos, aux_lookup_insert_ne k k' v m h]

theorem aux_send_loop_zero (now : Timestamp) (proj sess : String)
    (l : List (LogEntry × Nat)) (last : Nat) :
    send_loop 0 now proj sess l last = ([], last) := by
  cases l with
  | nil => rfl
  | cons p rest => cases p; simp [send_loop, broadcast_send]

theorem aux_retain_some (ext : ExternalFns) (fromPos s : Nat) (c : List Nat)
    (e0 : Nat) (en : LogEntry) (off : Nat)
    (h : retainLine ext fromPos s c e0 = some (en, off)) :
    fromPos ≤ s ∧ off = e0 ∧ fromStr ext c = some en
      ∧ (trimBytes c).head? = some 123 ∧ (trimBytes c).getLast? = some 125 := by
  unfold retainLine at h
  by_cases h1 : fromPos ≤ s
  · simp only [if_pos h1] at h
    by_cases h2 : ((trimBytes c).head? = some 123 && (trimBytes c).getLast? = some 125) = true
    · simp only [if_pos h2] at h
      have hp : (trimBytes c).head? = some 123 ∧ (trimBytes c).getLast? = some 125 := by
        simpa using h2
      cases hf : fromStr ext c with
      | none => rw [hf] at h; exact absurd h (by simp)
      | some en2 =>
        rw [hf] at h
        have h3 : en2 = en ∧ e0 = off := by simpa using h
        exact ⟨h1, h3.2.symm, by rw [h3.1], hp.1, hp.2⟩
    · simp only [if_neg h2] at h
      exact absurd h (by simp)
  · simp only [if_neg h1] at h
    exact absurd h (by simp)

theorem aux_send_loop_ge (r : Nat) (now : Timestamp) (proj sess : String)
    (base : Nat) :
    ∀ (l : List (LogEntry × Nat)) (last : Nat),
      (∀ p ∈ l, base ≤ p.2) → base ≤ last →
      base ≤ (send_loop r now proj sess l last).2 := by
  intro l
  induction l with
  | nil => intro last _ hl; simpa [send_loop] using hl
  | cons p rest ih =>
    intro last hmem hl
    cases p with
    | mk en pos =>
      simp only [send_loop]
      cases hb : broadcast_send r ⟨"log_entry", proj, some sess, some en, now⟩ with
      | error _ => simpa using hl
      | ok _ =>
        simp only []
        exact ih pos (fun q hq => hmem q (List.mem_cons_of_mem _ hq))
          (hmem (en, pos) (List.mem_cons_self _ _))

theorem aux_send_loop_shape (r : Nat) (now : Timestamp) (proj sess : String) :
    ∀ (l : List (LogEntry × Nat)) (last : Nat) (ev : WatchEvent),
      ev ∈ (send_loop r now proj sess l last).1 →
      ∃ en, ev = ⟨"log_entry", proj, some sess, some en, now⟩ := by
  intro l
  induction l with
  | nil => intro last ev h; exact absurd h (by simp [send_loop])
  | cons p rest ih =>
    intro last ev h
    cases p with
    | mk en pos =>
      simp only [send_loop] at h
      cases hb : broadcast_send r ⟨"log_entry", proj, some sess, some en, now⟩ with
      | error _ => rw [hb] at h; exact absurd h (by simp)
      | ok _ =>
        rw [hb] at h
        simp only [List.mem_cons] at h
        cases h with
        | inl he => exact ⟨en, he⟩
        | inr ht => exact ih pos ev ht

theorem aux_main_send_loop_shape (r : Nat) (now : Timestamp) (proj sess : String) :
    ∀ (l : List LogEntry) (ev : WatchEvent),
      ev ∈ main_send_loop r now proj sess l →
      ∃ en, ev = ⟨"log_entry", proj, some sess, some en, now⟩ := by
  intro l
  induction l with
  | nil => intro ev h; exact absurd h (by simp [main_send_loop])
  | cons en rest ih =>
    intro ev h
    simp only [main_send_loop] at h
    cases hb : broadcast_send r ⟨"log_entry", proj, some sess, some en, now⟩ with
    | error _ => rw [hb] at h; exact absurd h (by simp)
    | ok _ =>
      rw [hb] at h
      simp only [List.mem_cons] at h
      cases h with
      | inl he => exact ⟨en, he⟩
      | inr ht => exact ih ev ht

theorem aux_scan_eq_spans (ext : ExternalFns) (fromPos : Nat) :
    ∀ (bytes : List Nat) (start pos : Nat) (acc : List Nat),
      scan_go ext fromPos bytes start pos acc
        = (spans_go bytes start pos acc).filterMap
            (fun sp => retainLine ext fromPos sp.1 sp.2.1 sp.2.2) := by
  intro bytes
  induction bytes with
  | nil =>
    intro start pos acc
    by_cases ha : acc.isEmpty
    · simp [scan_go, spans_go, ha]
    · simp only [scan_go, spans_go, if_neg ha]
      cases hr : retainLine ext fromPos start acc.reverse pos with
      | none => simp [List.filterMap_cons, hr]
      | some x => simp [List.filterMap_cons, hr]
  | cons b rest ih =>
    intro start pos acc
    by_cases hb : b = 10
    · simp only [scan_go, spans_go, if_pos hb]
      rw [List.filterMap_cons, ih]
      cases hr : retainLine ext fromPos start acc.reverse (pos + 1) with
      | none => simp [hr]
      | some x => simp [hr]
    · simp only [scan_go, spans_go, if_neg hb]
      exact ih start (pos + 1) (b :: acc)

theorem aux_spans_facts :
    ∀ (bytes : List Nat) (start : Nat) (acc : List Nat) (pre : List Nat),
      pre.length = start + acc.length →
      ∀ sp ∈ spans_go bytes start pre.length acc,
        start ≤ sp.1 ∧ sp.1 < sp.2.2 ∧ sp.2.2 ≤ (pre ++ bytes).length ∧
          ((pre ++ bytes)[sp.2.2 - 1]? = some 10 ∨ sp.2.2 = (pre ++ bytes).length) := by
  intro bytes
  induction bytes with
  | nil =>
    intro start acc pre hlen sp hsp
    by_cases ha : acc.isEmpty
    · simp [spans_go, ha] at hsp
    · simp only [spans_go, if_neg ha, List.mem_singleton] at hsp
      subst hsp
      have hacc : 0 < acc.length := by
        cases acc with
        | nil => simp at ha
        | cons x xs => simp
      refine ⟨?_, ?_, ?_, Or.inr ?_⟩
      · show start ≤ start
        exact Nat.le_refl start
      · show start < pre.length
        omega
      · show pre.length ≤ (pre ++ []).length
        simp
      · show pre.length = (pre ++ []).length
        simp
  | cons b rest ih =>
    intro start acc pre hlen sp hsp
    by_cases hb : b = 10
    · simp only [spans_go, if_pos hb, List.mem_cons] at hsp
      cases hsp with
      | inl he =>
        subst he
        refine ⟨?_, ?_, ?_, Or.inl ?_⟩
        · show start ≤ start
          exact Nat.le_refl start
        · show start < pre.length + 1
          omega
        · show pre.length + 1 ≤ (pre ++ b :: rest).length
          simp only [List.length_append, List.length_cons]
          omega
        · show (pre ++ b :: rest)[pre.length + 1 - 1]? = some 10
          subst hb
          have h10 : (pre ++ 10 :: rest)[pre.length]? = some 10 := by
            rw [List.getElem?_append_right (Nat.le_refl _)]
            simp
          simpa using h10
      | inr ht =>
        have hlen2 : (pre ++ [b]).length = (pre.length + 1) + ([] : List Nat).length := by
          simp
        have ht2 : sp ∈ spans_go rest (pre.length + 1) (pre ++ [b]).length [] := by
          rw [hlen2]; exact ht
        have hres := ih (pre.length + 1) [] (pre ++ [b]) hlen2 sp ht2
        have hrw : (pre ++ [b]) ++ rest = pre ++ b :: rest := by simp
        rw [hrw] at hres
        refine ⟨?_, hres.2.1, hres.2.2.1, hres.2.2.2⟩
        have : start ≤ pre.length := by omega
        omega
    · simp only [spans_go, if_neg hb] at hsp
      have hlen2 : (pre ++ [b]).length = start + (b :: acc).length := by
        simp; omega
      have ht2 : sp ∈ spans_go rest start (pre ++ [b]).length (b :: acc) := by
        have : (pre ++ [b]).length = pre.length + 1 := by simp
        rw [this]; exact hsp
      have hres := ih start (b :: acc) (pre ++ [b]) hlen2 sp ht2
      have hrw : (pre ++ [b]) ++ rest = pre ++ b :: rest := by simp
      rw [hrw] at hres
      exact hres

theorem aux_scan_mem_facts (ext : ExternalFns) (fromPos : Nat)
    (content : List Nat) (en : LogEntry) (off : Nat)
    (h : (en, off) ∈ scan_new_entries ext content fromPos) :
    fromPos < off ∧ off ≤ content.length ∧
      (content[off - 1]? = some 10 ∨ off = content.length) := by
  unfold scan_new_entries at h
  rw [aux_scan_eq_spans] at h
  obtain ⟨sp, hsp, hret⟩ := List.mem_filterMap.mp h
  obtain ⟨h1, h2, _⟩ := aux_retain_some ext fromPos sp.1 sp.2.1 sp.2.2 en off hret
  have hsp2 : sp ∈ spans_go content 0 ([] : List Nat).length [] := by
    simpa using hsp
  have hres := aux_spans_facts content 0 [] [] (by simp) sp hsp2
  simp only [List.nil_append] at hres
  subst h2
  exact ⟨Nat.lt_of_le_of_lt h1 hres.2.1, hres.2.2.1, hres.2.2.2⟩

theorem aux_handle_path_not_jsonl (ext : ExternalFns) (now sysNow : Timestamp)
    (p : PathInfo) (mdRes : Option Metadata) (readRes : Option (List Nat))
    (r : Nat) (sessions : SessionsMap) (hext : ¬ p.ext = some "jsonl") :
    handle_path ext now sysNow p mdRes readRes r sessions = (sessions, []) := by
  unfold handle_path
  rw [if_neg hext]

theorem aux_handle_path_no_parent (ext : ExternalFns) (now sysNow : Timestamp)
    (p : PathInfo) (mdRes : Option Metadata) (readRes : Option (List Nat))
    (r : Nat) (sessions : SessionsMap) (hext : p.ext = some "jsonl")
    (hpar : p.parentName = none) :
    handle_path ext now sysNow p mdRes readRes r sessions = (sessions, []) := by
  unfold handle_path
  rw [if_pos hext, hpar]

theorem aux_handle_path_no_md (ext : ExternalFns) (now sysNow : Timestamp)
    (p : PathInfo) (readRes : Option (List Nat)) (r : Nat)
    (sessions : SessionsMap) (proj : String) (hext : p.ext = some "jsonl")
    (hpar : p.parentName = some proj) :
    handle_path ext now sysNow p none readRes r sessions = (sessions, []) := by
  unfold handle_path
  rw [if_pos hext, hpar]

theorem aux_handle_path_some (ext : ExternalFns) (now sysNow : Timestamp)
    (p : PathInfo) (md : Metadata) (readRes : Option (List Nat)) (r : Nat)
    (sessions : SessionsMap) (proj : String) (hext : p.ext = some "jsonl")
    (hpar : p.parentName = some proj) :
    handle_path ext now sysNow p (some md) readRes r sessions
      = (insertS (proj ++ ":" ++ p.stem.getD "unknown")
          ⟨proj, p.raw,
            (send_loop r now proj (p.stem.getD "unknown")
              ((entriesOf ext readRes
                  (getPos sessions (proj ++ ":" ++ p.stem.getD "unknown"))).take 10)
              (getPos sessions (proj ++ ":" ++ p.stem.getD "unknown"))).2,
            md.modified.getD sysNow⟩ sessions,
        (send_loop r now proj (p.stem.getD "unknown")
          ((entriesOf ext readRes
              (getPos sessions (proj ++ ":" ++ p.stem.getD "unknown"))).take 10)
          (getPos sessions (proj ++ ":" ++ p.stem.getD "unknown"))).1) := by
  unfold handle_path
  rw [if_pos hext, hpar]
  rfl

theorem aux_main_handle_path_some (ext : ExternalFns) (now sysNow : Timestamp)
    (p : PathInfo) (md : Metadata) (readRes : Option (List Nat)) (r : Nat)
    (sessions : SessionsMap) (proj : String) (hext : p.ext = some "jsonl")
    (hpar : p.parentName = some proj) :
    main_handle_path ext now sysNow p (some md) readRes r sessions
      = (insertS (proj ++ ":" ++ p.stem.getD "unknown")
          ⟨proj, p.raw, md.len, md.modified.getD sysNow⟩ sessions,
        main_send_loop r now proj (p.stem.getD "unknown")
          ((main_entriesOf ext readRes
              (getPos sessions (proj ++ ":" ++ p.stem.getD "unknown"))).take 10)) := by
  unfold main_handle_path
  rw [if_pos hext, hpar]
  rfl

theorem aux_logEntryFromJson_shape (ext : ExternalFns) (j : Json)
    (en : LogEntry) (h : logEntryFromJson ext j = some en) :
    (∃ fs, j = Json.obj fs) ∨ (∃ es, j = Json.arr es ∧ es.length = 14) := by
  cases j with
  | obj fs => exact Or.inl ⟨fs, rfl⟩
  | arr es =>
    refine Or.inr ⟨es, rfl, ?_⟩
    simp only [logEntryFromJson] at h
    split at h
    · simp
    · exact absurd h (by simp)
  | null => exact absurd h (by simp [logEntryFromJson])
  | bool b => exact absurd h (by simp [logEntryFromJson])
  | num n => exact absurd h (by simp [logEntryFromJson])
  | str s => exact absurd h (by simp [logEntryFromJson])

theorem aux_fromStr_shape (ext : ExternalFns) (line : List Nat) (en : LogEntry)
    (h : fromStr ext line = some en) :
    (∃ fs, ext.parseJson line = some (Json.obj fs))
      ∨ (∃ es, ext.parseJson line = some (Json.arr es) ∧ es.length = 14) := by
  unfold fromStr at h
  cases hp : ext.parseJson line with
  | none => rw [hp] at h; exact absurd h (by simp)
  | some j =>
    rw [hp] at h
    simp only [Option.some_bind] at h
    cases aux_logEntryFromJson_shape ext j en h with
    | inl hobj =>
      obtain ⟨fs, hfs⟩ := hobj
      exact Or.inl ⟨fs, by rw [hfs]⟩
    | inr harr =>
      obtain ⟨es, hes, hlen⟩ := harr
      exact Or.inr ⟨es, by rw [hes], hlen⟩

/-- C1: the claim holds for the library dispatcher but the binary's
duplicate dispatcher violates it.  On a fresh 45-byte file of 15 one-object
lines with one subscriber, both dispatchers publish exactly 10 events, but
the binary's stores the raw end-of-file size 45 as the tracked offset (so
a second notification finds nothing: the 5 capped-off entries are lost),
while the library's stores 30, the end offset of the 10th emitted entry,
and a second notification delivers the remaining 5 entries. -/
theorem c1_dispatch_cap_and_offset :
    contentC.length = 45
    ∧ mainDisp1.2.length = 10
    ∧ getPos mainDisp1.1 "groupA:s1" = mdC.len
    ∧ mainDisp2.2.length = 0
    ∧ libDisp1.2.length = 10
    ∧ getPos libDisp1.1 "groupA:s1" = 30
    ∧ libDisp2.2.length = 5
    ∧ getPos libDisp2.1 "groupA:s1" = 45 :=
  ⟨rfl, rfl, rfl, rfl, rfl, rfl, rfl, rfl⟩

/-- C2: a failed file read makes `read_new_entries` return `Ok` of the
empty list rather than an error, and the dispatcher then publishes nothing
and leaves every stream's tracked offset at its previous value. -/
theorem c2_read_error_zero_entries :
    (∀ (ext : ExternalFns) (fromPos : Nat),
      read_new_entries ext none fromPos = Except.ok [])
    ∧ (∀ (ext : ExternalFns) (now sysNow : Timestamp) (proj stem raw : String)
        (md : Metadata) (r : Nat) (sessions : SessionsMap) (key0 : String),
        (handle_path ext now sysNow ⟨some "jsonl", some proj, some stem, raw⟩
            (some md) none r sessions).2 = []
        ∧ getPos (handle_path ext now sysNow
              ⟨some "jsonl", some proj, some stem, raw⟩
              (some md) none r sessions).1 key0 = getPos sessions key0) := by
  refine ⟨fun ext fromPos => rfl, ?_⟩
  intro ext now sysNow proj stem raw md r sessions key0
  rw [aux_handle_path_some ext now sysNow ⟨some "jsonl", some proj, some stem, raw⟩
    md none r sessions proj rfl rfl]
  simp only [Option.getD_some]
  constructor
  · rfl
  · by_cases hk : key0 = proj ++ ":" ++ stem
    · rw [hk, aux_getPos_insert_self]
      rfl
    · rw [aux_getPos_insert_ne _ _ _ _ hk]


/-- C3 counterexample: publishing on the broadcast channel with zero
current subscribers does NOT succeed — tokio's `send` returns the event
back as a `SendError`, which is what the dispatcher's break tests. -/
theorem c3_counterexample_zero_subscribers :
    broadcast_send 0 evC = Except.error evC
    ∧ broadcast_send 0 evC ≠ Except.ok () := by
  refine ⟨rfl, ?_⟩
  intro h
  exact Except.noConfusion h

/-- C3 amended: `send` on the channel with zero subscribers returns a
`SendError` carrying the event (and succeeds whenever at least one
subscriber exists); the dispatcher stops publishing for the path because
of that returned error, which is benign — it publishes nothing and leaves
every tracked offset unchanged, so nothing is lost. -/
theorem c3_zero_subscribers_send_error :
    (∀ ev, broadcast_send 0 ev = Except.error ev)
    ∧ (∀ (r : Nat) (ev : WatchEvent), r ≠ 0 → broadcast_send r ev = Except.ok ())
    ∧ (∀ (ext : ExternalFns) (now sysNow : Timestamp) (p : PathInfo)
        (mdRes : Option Metadata) (readRes : Option (List Nat))
        (sessions : SessionsMap) (key0 : String),
        (handle_path ext now sysNow p mdRes readRes 0 sessions).2 = []
        ∧ getPos (handle_path ext now sysNow p mdRes readRes 0 sessions).1 key0
            = getPos sessions key0) := by
  refine ⟨fun ev => rfl, fun r ev hr => by simp [broadcast_send, hr], ?_⟩
  intro ext now sysNow p mdRes readRes sessions key0
  by_cases hext : p.ext = some "jsonl"
  · cases hpar : p.parentName with
    | none =>
      rw [aux_handle_path_no_parent ext now sysNow p mdRes readRes 0 sessions hext hpar]
      exact ⟨rfl, rfl⟩
    | some proj =>
      cases mdRes with
      | none =>
        rw [aux_handle_path_no_md ext now sysNow p readRes 0 sessions proj hext hpar]
        exact ⟨rfl, rfl⟩
      | some md =>
        rw [aux_handle_path_some ext now sysNow p md readRes 0 sessions proj hext hpar]
        rw [aux_send_loop_zero]
        dsimp only
        constructor
        · rfl
        · by_cases hk : key0 = proj ++ ":" ++ p.stem.getD "unknown"
          · rw [hk, aux_getPos_insert_self]
          · rw [aux_getPos_insert_ne _ _ _ _ hk]
  · rw [aux_handle_path_not_jsonl ext now sysNow p mdRes readRes 0 sessions hext]
    exact ⟨rfl, rfl⟩

/-- C3 amended witness: with one subscriber the send succeeds. -/
theorem c3_zero_subscribers_send_error_witness :
    broadcast_send 1 evC = Except.ok () :=
  c3_zero_subscribers_send_error.2.1 1 evC (by decide)

/-- C4: on a successful read, `read_new_entries` returns exactly the
per-line filter of the buffer's line decomposition: a line is retained
precisely when its start offset is at least `from_offset`, its trimmed
text starts with byte 123 and ends with byte 125, and it parses as a
`LogEntry`; every other line is discarded and the scan continues. -/
theorem c4_read_new_entries_filter :
    ∀ (ext : ExternalFns) (content : List Nat) (fromPos : Nat),
      read_new_entries ext (some content) fromPos
        = Except.ok ((lineSpans content).filterMap
            (fun sp => retainLine ext fromPos sp.1 sp.2.1 sp.2.2)) := by
  intro ext content fromPos
  exact congrArg Except.ok (aux_scan_eq_spans ext fromPos content 0 0 [])

/-- C8: a missing projects directory is fatal before the watcher or the
server start; the per-file reader and the whole dispatcher never return an
error, and a per-event serialization failure leaves the connection state
untouched — per-item errors are contained. -/
theorem c8_missing_root_fatal :
    (∀ a b, run_main false a b = ⟨true, false, false⟩)
    ∧ (∀ (ext : ExternalFns) (readRes : Option (List Nat)) (fromPos : Nat),
        ∃ v, read_new_entries ext readRes fromPos = Except.ok v)
    ∧ (∀ (ext : ExternalFns) (now sysNow : Timestamp) (kind : FsEventKind)
        (paths : List (PathInfo × Option Metadata × Option (List Nat)))
        (r : Nat) (sessions : SessionsMap),
        ∃ v, handle_fs_event ext now sysNow kind paths r sessions = Except.ok v)
    ∧ (∀ (s : WsState) (sendOk : Bool),
        wsStep s (WsInput.chanEvent false sendOk) = s) := by
  refine ⟨fun a b => rfl, fun ext readRes fromPos => ⟨_, rfl⟩, ?_, ?_⟩
  · intro ext now sysNow kind paths r sessions
    cases kind <;> exact ⟨_, rfl⟩
  · intro s sendOk
    simp [wsStep]

/-- C9: evaluation of the connection model at the failing trace.  After
the client's close frame the inbound task ends and the handler returns,
but the outbound forwarder is still running and the subscription is still
held; benign stimuli leave this orphan alive indefinitely, and only a
failing transport send on a later broadcast event ends it. -/
theorem c9_orphaned_outbound_task :
    wsRun [WsInput.closeFrame] = ⟨false, true, true, true⟩
    ∧ wsRun [WsInput.closeFrame, WsInput.textFrame, WsInput.chanEvent true true]
        = ⟨false, true, true, true⟩
    ∧ wsRun [WsInput.closeFrame, WsInput.chanEvent true false]
        = ⟨false, false, true, false⟩ :=
  ⟨rfl, rfl, rfl⟩

/-- C5: every pair returned by a successful `read_new_entries` carries an
end offset that points one past a newline byte of the buffer, or equals
the buffer length for a final unterminated line. -/
theorem c5_entry_end_offset :
    ∀ (ext : ExternalFns) (content : List Nat) (fromPos : Nat)
      (es : List (LogEntry × Nat)) (en : LogEntry) (off : Nat),
      read_new_entries ext (some content) fromPos = Except.ok es →
      (en, off) ∈ es →
      off ≤ content.length ∧
        (content[off - 1]? = some 10 ∨ off = content.length) := by
  intro ext content fromPos es en off h1 h2
  have h1' : (Except.ok (scan_new_entries ext content fromPos)
      : Except String (List (LogEntry × Nat))) = Except.ok es := h1
  have hes := (Except.ok.inj h1').symm
  rw [hes] at h2
  have hf := aux_scan_mem_facts ext fromPos content en off h2
  exact ⟨hf.2.1, hf.2.2⟩

/-- C5 witness: the single-line two-byte file yields the pair with end
offset 2, the end of the buffer. -/
theorem c5_entry_end_offset_witness :
    2 ≤ ([123, 125] : List Nat).length ∧
      (([123, 125] : List Nat)[2 - 1]? = some 10
        ∨ 2 = ([123, 125] : List Nat).length) :=
  c5_entry_end_offset extC [123, 125] 0 [(emptyEntryC, 2)] emptyEntryC 2 rfl
    (List.Mem.head _)

/-- C6: the library dispatcher never lowers any stream's tracked offset:
the offset written back is at least the offset read at the start of the
invocation, for every key; the binary's dispatcher also never lowers it
whenever the file has not shrunk below the tracked offset (its write is
the metadata length). -/
theorem c6_offset_monotone :
    (∀ (ext : ExternalFns) (now sysNow : Timestamp) (p : PathInfo)
        (mdRes : Option Metadata) (readRes : Option (List Nat)) (r : Nat)
        (sessions : SessionsMap) (key0 : String),
        getPos sessions key0
          ≤ getPos (handle_path ext now sysNow p mdRes readRes r sessions).1 key0)
    ∧ (∀ (ext : ExternalFns) (now sysNow : Timestamp) (proj stem raw : String)
        (md : Metadata) (readRes : Option (List Nat)) (r : Nat)
        (sessions : SessionsMap) (key0 : String),
        getPos sessions (proj ++ ":" ++ stem) ≤ md.len →
        getPos sessions key0
          ≤ getPos (main_handle_path ext now sysNow
              ⟨some "jsonl", some proj, some stem, raw⟩
              (some md) readRes r sessions).1 key0) := by
  constructor
  · intro ext now sysNow p mdRes readRes r sessions key0
    by_cases hext : p.ext = some "jsonl"
    · cases hpar : p.parentName with
      | none =>
        rw [aux_handle_path_no_parent ext now sysNow p mdRes readRes r sessions
          hext hpar]
      | some proj =>
        cases mdRes with
        | none =>
          rw [aux_handle_path_no_md ext now sysNow p readRes r sessions proj
            hext hpar]
        | some md =>
          rw [aux_handle_path_some ext now sysNow p md readRes r sessions proj
            hext hpar]
          by_cases hk : key0 = proj ++ ":" ++ p.stem.getD "unknown"
          · rw [hk]
            have hself := aux_getPos_insert_self
              (proj ++ ":" ++ p.stem.getD "unknown")
              (⟨proj, p.raw,
                (send_loop r now proj (p.stem.getD "unknown")
                  ((entriesOf ext readRes
                      (getPos sessions
                        (proj ++ ":" ++ p.stem.getD "unknown"))).take 10)
                  (getPos sessions
                    (proj ++ ":" ++ p.stem.getD "unknown"))).2,
                md.modified.getD sysNow⟩ : SessionState) sessions
            rw [hself]
            apply aux_send_loop_ge
            · intro q hq
              have hq2 := List.take_subset 10 _ hq
              cases readRes with
              | none => exact absurd hq2 (by simp [entriesOf])
              | some content =>
                cases q with
                | mk en off =>
                  have hm : (en, off) ∈ scan_new_entries ext content
                      (getPos sessions (proj ++ ":" ++ p.stem.getD "unknown")) :=
                    hq2
                  have hf := aux_scan_mem_facts ext
                    (getPos sessions (proj ++ ":" ++ p.stem.getD "unknown"))
                    content en off hm
                  exact Nat.le_of_lt hf.1
            · exact Nat.le_refl _
          · rw [aux_getPos_insert_ne _ _ _ _ hk]
    · rw [aux_handle_path_not_jsonl ext now sysNow p mdRes readRes r sessions
        hext]
  · intro ext now sysNow proj stem raw md readRes r sessions key0 hmd
    rw [aux_main_handle_path_some ext now sysNow
      ⟨some "jsonl", some proj, some stem, raw⟩ md readRes r sessions proj
      rfl rfl]
    simp only [Option.getD_some]
    by_cases hk : key0 = proj ++ ":" ++ stem
    · rw [hk, aux_getPos_insert_self]
      exact hmd
    · rw [aux_getPos_insert_ne _ _ _ _ hk]

/-- C6 witness: fresh map, binary dispatcher, a file of length 45. -/
theorem c6_offset_monotone_witness :
    getPos [] "groupA:s1"
      ≤ getPos (main_handle_path extC 0 0
          ⟨some "jsonl", some "groupA", some "s1", "groupA/s1.jsonl"⟩
          (some mdC) none 1 []).1 "groupA:s1" :=
  c6_offset_monotone.2 extC 0 0 "groupA" "s1" "groupA/s1.jsonl" mdC none 1 []
    "groupA:s1" (Nat.zero_le _)

/-- C7 counterexample: serde_json's struct-from-sequence branch means the
line that parses to a JSON array of 14 nulls — not an object — does become
a `LogEntry` (all fields absent) in the unfiltered session-log reader. -/
theorem c7_counterexample_array_line :
    extA.parseJson arrLineC = some (Json.arr (List.replicate 14 Json.null))
    ∧ jsonIsObj (Json.arr (List.replicate 14 Json.null)) = false
    ∧ fromStr extA arrLineC = some emptyEntryC
    ∧ get_session_logs_entries extA arrLineC = [emptyEntryC] :=
  ⟨rfl, rfl, rfl, rfl⟩

/-- C7 amended: a `LogEntry` only ever comes from a line whose JSON parse
is an object, or a JSON array of exactly 14 elements deserializing
positionally as the struct's fields (serde_json's struct-from-sequence
branch).  For the incremental reader the brace pre-filter restores the
object-only property whenever — as with real serde_json — text whose
trimmed form starts with byte 123 never parses to an array; the unfiltered
session-log reader admits both shapes. -/
theorem c7_logentry_object_or_seq :
    (∀ (ext : ExternalFns) (line : List Nat) (en : LogEntry),
        fromStr ext line = some en →
        (∃ fs, ext.parseJson line = some (Json.obj fs))
          ∨ (∃ es, ext.parseJson line = some (Json.arr es) ∧ es.length = 14))
    ∧ (∀ (ext : ExternalFns),
        (∀ (l : List Nat) (es : List Json),
          (trimBytes l).head? = some 123 →
          ext.parseJson l ≠ some (Json.arr es)) →
        ∀ (content : List Nat) (fromPos : Nat) (en : LogEntry) (off : Nat),
          (en, off) ∈ scan_new_entries ext content fromPos →
          ∃ l, l ∈ (lineSpans content).map (fun sp => sp.2.1)
            ∧ fromStr ext l = some en
            ∧ ∃ fs, ext.parseJson l = some (Json.obj fs))
    ∧ (∀ (ext : ExternalFns) (content : List Nat) (en : LogEntry),
        en ∈ get_session_logs_entries ext content →
        ∃ l, l ∈ rustLines content ∧ fromStr ext l = some en
          ∧ ((∃ fs, ext.parseJson l = some (Json.obj fs))
             ∨ (∃ es, ext.parseJson l = some (Json.arr es)
                  ∧ es.length = 14))) := by
  refine ⟨fun ext line en h => aux_fromStr_shape ext line en h, ?_, ?_⟩
  · intro ext hyp content fromPos en off h
    have h2 : (en, off) ∈ (spans_go content 0 0 []).filterMap
        (fun sp => retainLine ext fromPos sp.1 sp.2.1 sp.2.2) := by
      rw [← aux_scan_eq_spans]
      exact h
    obtain ⟨sp, hsp, hret⟩ := List.mem_filterMap.mp h2
    obtain ⟨hle, hoff, hfs, h123, h125⟩ :=
      aux_retain_some ext fromPos sp.1 sp.2.1 sp.2.2 en off hret
    cases aux_fromStr_shape ext sp.2.1 en hfs with
    | inl hobj =>
      obtain ⟨fs2, hobj2⟩ := hobj
      exact ⟨sp.2.1, List.mem_map_of_mem _ hsp, hfs, fs2, hobj2⟩
    | inr harr =>
      obtain ⟨es, hes, _⟩ := harr
      exact absurd hes (hyp sp.2.1 es h123)
  · intro ext content en h
    obtain ⟨l, hl, hfl⟩ := List.mem_filterMap.mp h
    exact ⟨l, hl, hfl, aux_fromStr_shape ext l en hfl⟩

/-- C7 amended witness: the concrete parser satisfies the side condition
(no brace-headed text parses to an array), and the one retained entry of
the one-line brace-delimited file comes from an object parse. -/
theorem c7_logentry_object_or_seq_witness :
    ∃ l, l ∈ (lineSpans [123, 125]).map (fun sp => sp.2.1)
      ∧ fromStr extC l = some emptyEntryC
      ∧ ∃ fs, extC.parseJson l = some (Json.obj fs) := by
  have hyp : ∀ (l : List Nat) (es : List Json),
      (trimBytes l).head? = some 123 →
      extC.parseJson l ≠ some (Json.arr es) := by
    intro l es h123 hc
    have hc2 : (if l = [123, 125] then some (Json.obj []) else none)
        = some (Json.arr es) := hc
    split at hc2
    · exact absurd hc2 (by simp)
    · exact absurd hc2 (by simp)
  exact c7_logentry_object_or_seq.2.1 extC hyp [123, 125] 0 emptyEntryC 2
    (List.Mem.head _)

/-- C10: every event either dispatcher publishes is a log_entry event with
both its session and its entry field populated, although the wire shape
declares them optional. -/
theorem c10_watch_event_fields :
    (∀ (ext : ExternalFns) (now sysNow : Timestamp) (p : PathInfo)
        (mdRes : Option Metadata) (readRes : Option (List Nat)) (r : Nat)
        (sessions : SessionsMap) (ev : WatchEvent),
        ev ∈ (handle_path ext now sysNow p mdRes readRes r sessions).2 →
        ev.event_type = "log_entry" ∧ ev.session.isSome = true
          ∧ ev.entry.isSome = true)
    ∧ (∀ (ext : ExternalFns) (now sysNow : Timestamp) (p : PathInfo)
        (mdRes : Option Metadata) (readRes : Option (List Nat)) (r : Nat)
        (sessions : SessionsMap) (ev : WatchEvent),
        ev ∈ (main_handle_path ext now sysNow p mdRes readRes r sessions).2 →
        ev.event_type = "log_entry" ∧ ev.session.isSome = true
          ∧ ev.entry.isSome = true) := by
  constructor
  · intro ext now sysNow p mdRes readRes r sessions ev hev
    by_cases hext : p.ext = some "jsonl"
    · cases hpar : p.parentName with
      | none =>
        rw [aux_handle_path_no_parent ext now sysNow p mdRes readRes r sessions
          hext hpar] at hev
        exact absurd hev (by simp)
      | some proj =>
        cases mdRes with
        | none =>
          rw [aux_handle_path_no_md ext now sysNow p readRes r sessions proj
            hext hpar] at hev
          exact absurd hev (by simp)
        | some md =>
          rw [aux_handle_path_some ext now sysNow p md readRes r sessions proj
            hext hpar] at hev
          have hev2 : ev ∈ (send_loop r now proj (p.stem.getD "unknown")
              ((entriesOf ext readRes
                  (getPos sessions (proj ++ ":" ++ p.stem.getD "unknown"))).take 10)
              (getPos sessions (proj ++ ":" ++ p.stem.getD "unknown"))).1 := hev
          obtain ⟨en, he⟩ :=
            aux_send_loop_shape r now proj (p.stem.getD "unknown") _ _ ev hev2
          rw [he]
          exact ⟨rfl, rfl, rfl⟩
    · rw [aux_handle_path_not_jsonl ext now sysNow p mdRes readRes r sessions
        hext] at hev
      exact absurd hev (by simp)
  · intro ext now sysNow p mdRes readRes r sessions ev hev
    by_cases hext : p.ext = some "jsonl"
    · cases hpar : p.parentName with
      | none =>
        have hz : main_handle_path ext now sysNow p mdRes readRes r sessions
            = (sessions, []) := by
          unfold main_handle_path
          rw [if_pos hext, hpar]
        rw [hz] at hev
        exact absurd hev (by simp)
      | some proj =>
        cases mdRes with
        | none =>
          have hz : main_handle_path ext now sysNow p none readRes r sessions
              = (sessions, []) := by
            unfold main_handle_path
            rw [if_pos hext, hpar]
          rw [hz] at hev
          exact absurd hev (by simp)
        | some md =>
          rw [aux_main_handle_path_some ext now sysNow p md readRes r sessions
            proj hext hpar] at hev
          have hev2 : ev ∈ main_send_loop r now proj (p.stem.getD "unknown")
              ((main_entriesOf ext readRes
                  (getPos sessions
                    (proj ++ ":" ++ p.stem.getD "unknown"))).take 10) := hev
          obtain ⟨en, he⟩ :=
            aux_main_send_loop_shape r now proj (p.stem.getD "unknown") _ ev hev2
          rw [he]
          exact ⟨rfl, rfl, rfl⟩
    · have hz : main_handle_path ext now sysNow p mdRes readRes r sessions
          = (sessions, []) := by
        unfold main_handle_path
        rw [if_neg hext]
      rw [hz] at hev
      exact absurd hev (by simp)

/-- C10 witness: the one event published for the one-line two-byte file. -/
theorem c10_watch_event_fields_witness :
    ev10.event_type = "log_entry" ∧ ev10.session.isSome = true
      ∧ ev10.entry.isSome = true := by
  have hm : (handle_path extC 0 0 pathC (some md2C) (some [123, 125]) 1 []).2
      = [ev10] := rfl
  exact c10_watch_event_fields.1 extC 0 0 pathC (some md2C) (some [123, 125])
    1 [] ev10 (by rw [hm]; exact List.mem_singleton.mpr rfl)
